import Mathlib

/-!
Shallow embedding of the `deltoid` crate: the diff/patch algebra over
primitive leaf types (`src/deltoid/src/lib.rs`), the `Rc` wrapper deltas
(`src/deltoid/src/rc.rs`) and the snapshot history manager
(`src/deltoid/src/snapshot/full.rs`, `src/deltoid/src/snapshot/delta.rs`).
Rust `Result` values become `Except`, `Option` stays `Option`, `Vec`
becomes `List`, `DateTime<Utc>` timestamps become `Nat` (only cloning,
equality and ordering are used on them), and each call to `Utc::now()` is
made explicit as a `now : Nat` argument.
-/

set_option autoImplicit false

namespace Deltoid

/-- Modelled from the spec: the error taxonomy of §7 (the crate's
`src/error.rs` is not among the provided sources; `src/lib.rs` uses
`DeltaError::ExpectedValue` as a plain value and `src/snapshot/full.rs`
builds the same variant through the `ExpectedValue!` macro).
`expectedValue` is "a patch site required a replacement/child-delta that
was absent"; `unsupportedType` is surfaced only by the out-of-scope
code-generation boundary. -/
inductive DeltaError where
  | expectedValue
  | unsupportedType
  deriving DecidableEq, Repr

/-- Rust `DeltaResult<T> = Result<T, DeltaError>`. -/
abbrev DeltaResult (α : Type) : Type := Except DeltaError α

/-- The delta-algebra contract of `trait DeltaOps`
(src/deltoid/src/lib.rs lines 42-61), packaged as an explicit dictionary:
an associated delta type `δ`, `delta` (diff) and `applyDelta` (patch).
The snapshot code additionally requires `T: Default`
(src/deltoid/src/snapshot), so the dictionary carries `defaultVal`. -/
structure Algebra (α : Type) (δ : Type) where
  delta : α → α → DeltaResult δ
  applyDelta : α → δ → DeltaResult α
  defaultVal : α

/-- `DeltaOps::inverse_delta` default implementation
(src/deltoid/src/lib.rs lines 58-60): `other.delta(self)`. -/
def Algebra.inverseDelta {α δ : Type} (A : Algebra α δ) (self other : α) :
    DeltaResult δ :=
  A.delta other self

/-- The delta type that `impl_delta_trait_for_primitive_types!`
(src/deltoid/src/lib.rs lines 79-81) generates for each primitive type:
a newtype around a single optional replacement slot, `$delta(Option<$type>)`. -/
structure PrimDelta (α : Type) where
  slot : Option α
  deriving DecidableEq, Repr

/-- `IntoDelta::into_delta` for a primitive type
(src/deltoid/src/lib.rs lines 83-87): `Ok($delta(Some(self)))`. -/
def intoDelta {α : Type} (x : α) : DeltaResult (PrimDelta α) :=
  .ok ⟨some x⟩

/-- `FromDelta::from_delta` for a primitive type
(src/deltoid/src/lib.rs lines 89-93): `delta.0.ok_or(DeltaError::ExpectedValue)`. -/
def fromDelta {α : Type} (d : PrimDelta α) : DeltaResult α :=
  match d.slot with
  | some x => .ok x
  | none => .error DeltaError.expectedValue

/-- `DeltaOps::delta` for a primitive type
(src/deltoid/src/lib.rs lines 74-76): `rhs.clone().into_delta()`. -/
def primDeltaOf {α : Type} (_self rhs : α) : DeltaResult (PrimDelta α) :=
  intoDelta rhs

/-- `DeltaOps::apply_delta` for a primitive type
(src/deltoid/src/lib.rs lines 70-72): `Self::from_delta(delta.clone())`. -/
def primApplyDelta {α : Type} (_self : α) (d : PrimDelta α) : DeltaResult α :=
  fromDelta d

/-- The `Rc<T>` shared-ownership wrapper (src/deltoid/src/rc.rs).
The embedding keeps only the owned contents: `Rc::new`/`Rc::clone`
construct a value holding the same contents, and the crate's `delta`
immediately dereferences both sides (`self.as_ref()`), so pointer
identity never enters the functions modelled here. -/
structure Rc (α : Type) where
  val : α
  deriving DecidableEq, Repr

/-- `RcDelta<T>` (src/deltoid/src/rc.rs lines 38-42): an optional boxed
child delta, `RcDelta(Option<Box<<T as Deltoid>::Delta>>)`. -/
structure RcDelta (δ : Type) where
  child : Option δ
  deriving DecidableEq, Repr

/-- `Deltoid::delta for Rc<T>` (src/deltoid/src/rc.rs lines 26-34):
compare the dereferenced contents; equal contents give `RcDelta(None)`,
unequal contents recurse into the inner delta. -/
def rcDeltaOf {α δ : Type} [DecidableEq α] (A : Algebra α δ) (self rhs : Rc α) :
    DeltaResult (RcDelta δ) :=
  if self.val = rhs.val then
    .ok ⟨none⟩
  else
    (A.delta self.val rhs.val).map (fun d => ⟨some d⟩)

/-- `Deltoid::apply_delta for Rc<T>` (src/deltoid/src/rc.rs lines 18-24):
an empty child delta clones `self`; a present child delta patches the
dereferenced contents and wraps the result in a new `Rc`. -/
def rcApplyDelta {α δ : Type} (A : Algebra α δ) (self : Rc α) (d : RcDelta δ) :
    DeltaResult (Rc α) :=
  match d.child with
  | none => .ok self
  | some dc => (A.applyDelta self.val dc).map Rc.mk

/-- `FullSnapshot<T>` (src/deltoid/src/snapshot/full.rs lines 65-70):
one fully materialized state with provenance metadata. -/
structure FullSnapshot (α : Type) where
  timestamp : Nat
  origin : String
  state : α
  deriving DecidableEq, Repr

/-- `FullSnapshot::default` (src/deltoid/src/snapshot/full.rs lines
78-86): timestamp `Utc::now()`, origin `"default"`, state `T::default()`. -/
def defaultFullSnapshot {α δ : Type} (A : Algebra α δ) (now : Nat) :
    FullSnapshot α :=
  { timestamp := now, origin := "default", state := A.defaultVal }

/-- `PartialEq for FullSnapshot` (src/deltoid/src/snapshot/full.rs lines
88-94): compares timestamp and origin only; the `state` payload is never
inspected (this signature needs no equality on `α` at all). -/
def fullSnapshotEq {α : Type} (self rhs : FullSnapshot α) : Bool :=
  if self.timestamp ≠ rhs.timestamp then false
  else if self.origin ≠ rhs.origin then false
  else true

/-- `Ord for FullSnapshot` (src/deltoid/src/snapshot/full.rs lines
108-116): timestamp first, then origin, payload ignored. -/
def fullSnapshotCmp {α : Type} (self rhs : FullSnapshot α) : Ordering :=
  let tc := compare self.timestamp rhs.timestamp
  if tc ≠ Ordering.eq then tc
  else
    let oc := compare self.origin rhs.origin
    if oc ≠ Ordering.eq then oc
    else Ordering.eq

/-- `DeltaSnapshot<T>` (src/deltoid/src/snapshot/delta.rs lines 88-94):
one incremental change relative to its predecessor. -/
structure DeltaSnapshot (δ : Type) where
  timestamp : Nat
  origin : String
  delta : δ
  deriving DecidableEq, Repr

/-- `PartialEq for DeltaSnapshot` (src/deltoid/src/snapshot/delta.rs
lines 104-110): timestamp and origin only, the delta payload is ignored. -/
def deltaSnapshotEq {δ : Type} (self rhs : DeltaSnapshot δ) : Bool :=
  if self.timestamp ≠ rhs.timestamp then false
  else if self.origin ≠ rhs.origin then false
  else true

/-- `Ord for DeltaSnapshot` (src/deltoid/src/snapshot/delta.rs lines
127-135): timestamp first, then origin, payload ignored. -/
def deltaSnapshotCmp {δ : Type} (self rhs : DeltaSnapshot δ) : Ordering :=
  let tc := compare self.timestamp rhs.timestamp
  if tc ≠ Ordering.eq then tc
  else
    let oc := compare self.origin rhs.origin
    if oc ≠ Ordering.eq then oc
    else Ordering.eq

/-- `FullSnapshots<T>` (src/deltoid/src/snapshot/full.rs line 12):
an ordered sequence of full snapshots. -/
structure FullSnapshots (α : Type) where
  snaps : List (FullSnapshot α)
  deriving DecidableEq, Repr

/-- `FullSnapshots::snapshot_ref` (src/deltoid/src/snapshot/full.rs
lines 33-35): `self.0.get(idx).ok_or_else(|| ExpectedValue!(..))`. -/
def FullSnapshots.snapshotRef {α : Type} (h : FullSnapshots α) (idx : Nat) :
    DeltaResult (FullSnapshot α) :=
  match h.snaps[idx]? with
  | some s => .ok s
  | none => .error DeltaError.expectedValue

/-- `DeltaSnapshots<T>` (src/deltoid/src/snapshot/delta.rs lines 10-15):
ordered deltas plus the cached current full snapshot. -/
structure DeltaSnapshots (α : Type) (δ : Type) where
  snapshots : List (DeltaSnapshot δ)
  current : FullSnapshot α
  deriving DecidableEq, Repr

/-- `DeltaSnapshots::new` (src/deltoid/src/snapshot/delta.rs lines
19-24): empty sequence, default current snapshot. -/
def DeltaSnapshots.new {α δ : Type} (A : Algebra α δ) (now : Nat) :
    DeltaSnapshots α δ :=
  { snapshots := [], current := defaultFullSnapshot A now }

/-- `DeltaSnapshots::update_current` (src/deltoid/src/snapshot/delta.rs
lines 28-32): overwrite the cached current's state, origin and
timestamp; the stored deltas are untouched. -/
def DeltaSnapshots.updateCurrent {α δ : Type} (s : DeltaSnapshots α δ)
    (origin : String) (state : α) (now : Nat) : DeltaSnapshots α δ :=
  { s with current := { timestamp := now, origin := origin, state := state } }

/-- `DeltaSnapshots::clear` (src/deltoid/src/snapshot/delta.rs lines
34-37): drop all deltas, reset current to the default snapshot. -/
def DeltaSnapshots.clear {α δ : Type} (A : Algebra α δ)
    (_s : DeltaSnapshots α δ) (now : Nat) : DeltaSnapshots α δ :=
  { snapshots := [], current := defaultFullSnapshot A now }

/-- `DeltaSnapshots::add_snapshot` (src/deltoid/src/snapshot/delta.rs
lines 56-58): push an arbitrary delta snapshot; current is not updated. -/
def DeltaSnapshots.addSnapshot {α δ : Type} (s : DeltaSnapshots α δ)
    (snapshot : DeltaSnapshot δ) : DeltaSnapshots α δ :=
  { s with snapshots := s.snapshots ++ [snapshot] }

/-- `DeltaSnapshots::push_snapshot` (src/deltoid/src/snapshot/delta.rs
lines 43-54): diff the cached current state against the new state,
append the resulting delta snapshot, replace current with the new full
snapshot. -/
def DeltaSnapshots.pushSnapshot {α δ : Type} (A : Algebra α δ)
    (s : DeltaSnapshots α δ) (origin : String) (state : α) (now : Nat) :
    DeltaResult (DeltaSnapshots α δ) :=
  match A.delta s.current.state state with
  | .error e => .error e
  | .ok d =>
    let full : FullSnapshot α := { timestamp := now, origin := origin, state := state }
    let s1 := s.addSnapshot { timestamp := full.timestamp, origin := full.origin, delta := d }
    .ok { s1 with current := full }

/-- `DeltaSnapshots::take_snapshots` (src/deltoid/src/snapshot/delta.rs
lines 60-62): drain and return the stored deltas, leaving current as is. -/
def DeltaSnapshots.takeSnapshots {α δ : Type} (s : DeltaSnapshots α δ) :
    List (DeltaSnapshot δ) × DeltaSnapshots α δ :=
  (s.snapshots, { s with snapshots := [] })

/-- The loop body of `FullSnapshots::to_delta_snapshots`
(src/deltoid/src/snapshot/full.rs lines 40-50): walk the snapshots in
order; `old` is the previous snapshot's state (`self.0[sidx - 1].state`),
seeded with the initial default state for index 0; each step records the
delta from `old` to the snapshot's state under the snapshot's timestamp
and origin. -/
def toDeltaSnapshotsGo {α δ : Type} (A : Algebra α δ) :
    α → List (FullSnapshot α) → DeltaResult (List (DeltaSnapshot δ))
  | _, [] => .ok []
  | old, snapshot :: rest =>
    match A.delta old snapshot.state with
    | .error e => .error e
    | .ok d =>
      match toDeltaSnapshotsGo A snapshot.state rest with
      | .error e => .error e
      | .ok ds => .ok (⟨snapshot.timestamp, snapshot.origin, d⟩ :: ds)

/-- `FullSnapshots::to_delta_snapshots` (src/deltoid/src/snapshot/full.rs
lines 37-55): compute the delta sequence, and take the popped last full
snapshot (or the initial default when empty) as the cached current. -/
def FullSnapshots.toDeltaSnapshots {α δ : Type} (A : Algebra α δ)
    (now : Nat) (h : FullSnapshots α) : DeltaResult (DeltaSnapshots α δ) :=
  let initial := defaultFullSnapshot A now
  match toDeltaSnapshotsGo A initial.state h.snaps with
  | .error e => .error e
  | .ok deltas =>
    .ok { snapshots := deltas, current := (h.snaps.getLast?).getD initial }

/-- The loop body of `DeltaSnapshots::to_full_snapshots`
(src/deltoid/src/snapshot/delta.rs lines 66-75): `uncompressed` is the
accumulated output vector; `old` is `uncompressed.last().unwrap_or(&initial).state`;
each delta is applied to `old` and the patched state pushed with the
delta snapshot's timestamp and origin. -/
def toFullSnapshotsLoop {α δ : Type} (A : Algebra α δ)
    (initial : FullSnapshot α) :
    List (FullSnapshot α) → List (DeltaSnapshot δ) →
    DeltaResult (List (FullSnapshot α))
  | uncompressed, [] => .ok uncompressed
  | uncompressed, snapshot :: rest =>
    let old := ((uncompressed.getLast?).getD initial).state
    match A.applyDelta old snapshot.delta with
    | .error e => .error e
    | .ok patched =>
      toFullSnapshotsLoop A initial
        (uncompressed ++ [⟨snapshot.timestamp, snapshot.origin, patched⟩]) rest

/-- `DeltaSnapshots::to_full_snapshots` (src/deltoid/src/snapshot/delta.rs
lines 64-77). -/
def DeltaSnapshots.toFullSnapshots {α δ : Type} (A : Algebra α δ)
    (now : Nat) (s : DeltaSnapshots α δ) : DeltaResult (FullSnapshots α) :=
  let initial := defaultFullSnapshot A now
  match toFullSnapshotsLoop A initial [] s.snapshots with
  | .error e => .error e
  | .ok l => .ok ⟨l⟩

/-- Expansion as the spec words it (§4.4): starting from the given
state, sequentially patch through each delta in order, labelling each
reconstructed state with its delta snapshot's timestamp and origin; the
first failure aborts the whole conversion and discards the partial
output. Stated from the spec to serve as the refinement target for the
loop-with-accumulator translation above. -/
def specExpansion {α δ : Type} (A : Algebra α δ) :
    α → List (DeltaSnapshot δ) → DeltaResult (List (FullSnapshot α))
  | _, [] => .ok []
  | prev, snapshot :: rest =>
    match A.applyDelta prev snapshot.delta with
    | .error e => .error e
    | .ok patched =>
      match specExpansion A patched rest with
      | .error e => .error e
      | .ok l => .ok (⟨snapshot.timestamp, snapshot.origin, patched⟩ :: l)

/-- Replaying a list of deltas in order from a starting state (the
spec's "state obtained by replaying all deltas in order from the type's
default/initial value", §3). -/
def replay {α δ : Type} (A : Algebra α δ) : α → List δ → DeltaResult α
  | st, [] => .ok st
  | st, d :: ds =>
    match A.applyDelta st d with
    | .error e => .error e
    | .ok st1 => replay A st1 ds

/-- The cached-current invariant claimed for `DeltaSnapshots`:
`current.state` equals the result of replaying all stored deltas in
order from the type's default value. -/
def CurrentInvariant {α δ : Type} (A : Algebra α δ)
    (s : DeltaSnapshots α δ) : Prop :=
  replay A A.defaultVal (s.snapshots.map DeltaSnapshot.delta) = .ok s.current.state

/-- The primitive algebra at type `Bool` (the `bool => BoolDelta` line of
the macro invocation, src/deltoid/src/lib.rs line 115), used to
instantiate the generic theorems at a concrete type. -/
def boolAlgebra : Algebra Bool (PrimDelta Bool) where
  delta := primDeltaOf
  applyDelta := primApplyDelta
  defaultVal := false

end Deltoid

namespace Deltoid

theorem replay_append {α δ : Type} (A : Algebra α δ) (d : δ) (ds : List δ)
    (a : α) :
    replay A a (ds ++ [d]) = (replay A a ds).bind (fun st => A.applyDelta st d) := by
  induction ds generalizing a with
  | nil => cases h : A.applyDelta a d <;> simp [replay, h, Except.bind]
  | cons e ds ih => cases h : A.applyDelta a e <;> simp [replay, h, Except.bind, ih]

theorem toFullSnapshotsLoop_spec {α δ : Type} (A : Algebra α δ)
    (initial : FullSnapshot α) (ds : List (DeltaSnapshot δ)) :
    ∀ (acc : List (FullSnapshot α)) (prev : α),
      ((acc.getLast?).getD initial).state = prev →
      toFullSnapshotsLoop A initial acc ds =
        (specExpansion A prev ds).map (fun l => acc ++ l) := by
  induction ds with
  | nil =>
    intro acc prev _
    simp [toFullSnapshotsLoop, specExpansion, Except.map]
  | cons snapshot rest ih =>
    intro acc prev hprev
    cases h : A.applyDelta prev snapshot.delta with
    | error e =>
      simp [toFullSnapshotsLoop, hprev, h, specExpansion, Except.map]
    | ok patched =>
      have hlast :
          (((acc ++ [(⟨snapshot.timestamp, snapshot.origin, patched⟩ :
              FullSnapshot α)]).getLast?).getD initial).state = patched := by
        simp
      simp only [toFullSnapshotsLoop, hprev, h, specExpansion]
      rw [ih _ patched hlast]
      cases hr : specExpansion A patched rest with
      | error e => simp [hr, Except.map]
      | ok l => simp [hr, Except.map]

theorem specExpansion_ok_length {α δ : Type} (A : Algebra α δ)
    (ds : List (DeltaSnapshot δ)) :
    ∀ (prev : α) (l : List (FullSnapshot α)),
      specExpansion A prev ds = .ok l → l.length = ds.length := by
  induction ds with
  | nil =>
    intro prev l h
    simp only [specExpansion] at h
    cases h
    rfl
  | cons snapshot rest ih =>
    intro prev l h
    cases ha : A.applyDelta prev snapshot.delta with
    | error e =>
      simp only [specExpansion, ha] at h
      exact Except.noConfusion h
    | ok patched =>
      simp only [specExpansion, ha] at h
      cases hr : specExpansion A patched rest with
      | error e =>
        simp only [hr] at h
        exact Except.noConfusion h
      | ok l2 =>
        simp only [hr] at h
        cases h
        simp [ih patched l2 hr]

theorem specExpansion_error_first {α δ : Type} (A : Algebra α δ)
    (ds : List (DeltaSnapshot δ)) :
    ∀ (prev : α) (e : DeltaError),
      specExpansion A prev ds = .error e →
      ∃ i, ∃ hlt : i < ds.length, ∃ st,
        replay A prev ((ds.map DeltaSnapshot.delta).take i) = .ok st ∧
        A.applyDelta st (ds.get ⟨i, hlt⟩).delta = .error e := by
  induction ds with
  | nil => intro prev e h; simp [specExpansion] at h
  | cons snapshot rest ih =>
    intro prev e h
    cases ha : A.applyDelta prev snapshot.delta with
    | error e2 =>
      simp only [specExpansion, ha] at h
      cases h
      exact ⟨0, by simp, prev, by simp [replay], ha⟩
    | ok patched =>
      simp only [specExpansion, ha] at h
      cases hr : specExpansion A patched rest with
      | error e2 =>
        simp only [hr] at h
        cases h
        obtain ⟨i, hlt, st, hrep, happ⟩ := ih patched e hr
        refine ⟨i + 1, by simpa using Nat.succ_lt_succ hlt, st, ?_, ?_⟩
        · simp [replay, ha, hrep]
        · simpa using happ
      | ok l2 =>
        simp only [hr] at h
        exact Except.noConfusion h

theorem toDeltaSnapshotsGo_round_trip {α δ : Type} (A : Algebra α δ)
    (hrt : ∀ x y, (A.delta x y).bind (A.applyDelta x) = .ok y)
    (l : List (FullSnapshot α)) :
    ∀ old : α, ∃ ds, toDeltaSnapshotsGo A old l = .ok ds ∧
      specExpansion A old ds = .ok l := by
  induction l with
  | nil => intro old; exact ⟨[], rfl, rfl⟩
  | cons snapshot rest ih =>
    intro old
    have h := hrt old snapshot.state
    cases hd : A.delta old snapshot.state with
    | error e => rw [hd] at h; simp [Except.bind] at h
    | ok d =>
      rw [hd] at h
      have happ : A.applyDelta old d = .ok snapshot.state := by
        simpa [Except.bind] using h
      obtain ⟨ds, hds, hexp⟩ := ih snapshot.state
      refine ⟨⟨snapshot.timestamp, snapshot.origin, d⟩ :: ds, ?_, ?_⟩
      · simp [toDeltaSnapshotsGo, hd, hds]
      · simp [specExpansion, happ, hexp]

/-- "C1": for every primitive leaf type (the macro at
src/deltoid/src/lib.rs lines 98-118 instantiates the same code for every
integer width, `f32`/`f64`, `bool`, `char` and `()`; the proof is
parametric in the value type, so it covers all of them) and all values
`a`, `b`, applying `delta(a, b)` to `a` returns `Ok(b)`: the round-trip
law `patch(x, diff(x, y)) == y` holds at the leaves. -/
theorem primitive_round_trip {α : Type} (a b : α) :
    (primDeltaOf a b).bind (primApplyDelta a) = .ok b := rfl

/-- "C4": for every primitive scalar type and all values `a`, `b`
(including `a = b`), `delta(a, b)` always sets the replacement slot to
`Some(b)` (and so does `into_delta`): leaf-level diffing never produces an
empty slot. -/
theorem primitive_delta_always_fills_slot {α : Type} (a b : α) :
    primDeltaOf a b = .ok ⟨some b⟩ ∧ intoDelta b = .ok (⟨some b⟩ : PrimDelta α) :=
  ⟨rfl, rfl⟩

/-- "C5": for every primitive scalar type, value `a` and delta `d`,
`apply_delta(a, d)` returns `Err(ExpectedValue)` iff `d`'s replacement
slot is empty, and returns `Ok` of the slot's value otherwise. -/
theorem primitive_apply_reads_slot {α : Type} (a : α) (d : PrimDelta α) :
    (primApplyDelta a d = .error DeltaError.expectedValue ↔ d.slot = none) ∧
    (∀ x : α, d.slot = some x → primApplyDelta a d = .ok x) := by
  obtain ⟨s⟩ := d
  constructor
  · cases s <;> simp [primApplyDelta, fromDelta]
  · intro x hx
    cases s <;> simp_all [primApplyDelta, fromDelta]

/-- Witness for "C5" at a concrete input: the empty slot fails with
`ExpectedValue`, the filled slot `some 7` patches `3 : Nat` to `7`. -/
theorem primitive_apply_reads_slot_witness :
    primApplyDelta (3 : Nat) ⟨some 7⟩ = .ok 7 :=
  (primitive_apply_reads_slot (3 : Nat) ⟨some 7⟩).2 7 rfl

/-- Counterexample to "C3" as stated: at the primitive leaf shape,
`delta(a, a)` does not yield the canonical unchanged (no-op) delta.
For `a = true : bool`, `delta(a, a)` is the wholesale replacement
`BoolDelta(Some(true))` — not the empty slot `BoolDelta(None)` that the
shape uses for "no replacement" — and it is not a no-op: applied to
`false` it yields `true`, not `false`. -/
theorem primitive_self_delta_not_noop :
    primDeltaOf true true = .ok ⟨some true⟩ ∧
    (⟨some true⟩ : PrimDelta Bool) ≠ ⟨none⟩ ∧
    primApplyDelta false (⟨some true⟩ : PrimDelta Bool) = .ok true := by
  refine ⟨rfl, ?_, rfl⟩
  decide

/-- "C3" amended: `delta(a, a)` yields the canonical no-op delta for the
`Rc` container shape (`RcDelta(None)`), but at primitive leaves
`delta(a, a)` is the wholesale replacement `Some(a)` — an identity when
applied to `a` itself, yet not the empty "unchanged" slot. -/
theorem self_delta_shapes {α δ : Type} [DecidableEq α] (A : Algebra α δ)
    (r : Rc α) (a : α) :
    rcDeltaOf A r r = .ok ⟨none⟩ ∧
    primDeltaOf a a = .ok ⟨some a⟩ ∧
    primApplyDelta a (⟨some a⟩ : PrimDelta α) = .ok a := by
  refine ⟨?_, rfl, rfl⟩
  simp [rcDeltaOf]

/-- "C9": for `Rc`-wrapped values, `delta` yields the no-op delta
`RcDelta(None)` exactly when the pointed-to contents are value-equal
(succeeding deterministically in that case); otherwise it is the
recursive child delta of the contents; and patching with a non-empty
child delta builds a new `Rc` holding the patched inner value. -/
theorem rc_delta_spec {α δ : Type} [DecidableEq α] (A : Algebra α δ)
    (a b : Rc α) :
    (rcDeltaOf A a b = .ok ⟨none⟩ ↔ a.val = b.val) ∧
    (a.val ≠ b.val →
      rcDeltaOf A a b = (A.delta a.val b.val).map (fun d => ⟨some d⟩)) ∧
    (∀ (r : Rc α) (dc : δ),
      rcApplyDelta A r ⟨some dc⟩ = (A.applyDelta r.val dc).map Rc.mk) := by
  refine ⟨?_, ?_, fun r dc => rfl⟩
  · constructor
    · intro h
      by_contra hne
      simp only [rcDeltaOf, if_neg hne] at h
      rcases hd : A.delta a.val b.val with e | d <;>
        rw [hd] at h <;> simp [Except.map] at h
    · intro h
      simp [rcDeltaOf, h]
  · intro hne
    simp [rcDeltaOf, hne]

/-- "C2": for every ordered full-snapshot history over a type whose
delta algebra satisfies the round-trip law, compaction
(`to_delta_snapshots`) succeeds and expansion (`to_full_snapshots`) of
the result reproduces the original history exactly — every snapshot's
(timestamp, origin, state) triple in the original order. -/
theorem history_round_trip {α δ : Type} (A : Algebra α δ)
    (hrt : ∀ x y, (A.delta x y).bind (A.applyDelta x) = .ok y)
    (h : FullSnapshots α) (now1 now2 : Nat) :
    ∃ ds, FullSnapshots.toDeltaSnapshots A now1 h = .ok ds ∧
      DeltaSnapshots.toFullSnapshots A now2 ds = .ok h := by
  obtain ⟨snaps⟩ := h
  obtain ⟨ds, hds, hexp⟩ := toDeltaSnapshotsGo_round_trip A hrt snaps A.defaultVal
  refine ⟨{ snapshots := ds,
            current := (snaps.getLast?).getD (defaultFullSnapshot A now1) }, ?_, ?_⟩
  · simp only [FullSnapshots.toDeltaSnapshots, defaultFullSnapshot] at hds ⊢
    rw [hds]
  · simp only [DeltaSnapshots.toFullSnapshots]
    rw [toFullSnapshotsLoop_spec A (defaultFullSnapshot A now2) ds [] A.defaultVal rfl]
    rw [hexp]
    simp [Except.map]

/-- Witness for "C2" at a concrete input: a two-state `bool` history
compacts and expands back to itself under the primitive `bool` algebra. -/
theorem history_round_trip_witness :
    ∃ ds, FullSnapshots.toDeltaSnapshots boolAlgebra 7
        (⟨[⟨1, "a", true⟩, ⟨2, "b", false⟩]⟩ : FullSnapshots Bool) = .ok ds ∧
      DeltaSnapshots.toFullSnapshots boolAlgebra 9 ds =
        .ok ⟨[⟨1, "a", true⟩, ⟨2, "b", false⟩]⟩ :=
  history_round_trip boolAlgebra (fun _ _ => rfl)
    ⟨[⟨1, "a", true⟩, ⟨2, "b", false⟩]⟩ 7 9

/-- Counterexample to "C6" as stated: `update_current` is a public
operation, yet calling it on a fresh history makes the cached current
state drift from the replay of the (empty) stored delta sequence: after
`update_current("x", true)` the cache holds `true` while replaying no
deltas from the default `false` yields `false`. (`add_snapshot` and
`take_snapshots` break the invariant the same way.) -/
theorem current_drift_counterexample :
    ¬ CurrentInvariant boolAlgebra
      (DeltaSnapshots.updateCurrent (DeltaSnapshots.new boolAlgebra 0) "x" true 1) := by
  intro h
  simp [CurrentInvariant, DeltaSnapshots.updateCurrent, DeltaSnapshots.new,
    replay, boolAlgebra, defaultFullSnapshot] at h

/-- "C6" amended: the cached-current invariant — `current.state` equals
the replay of all stored deltas from the type's default value — holds
for the empty history created by `new`, is preserved by every successful
`push_snapshot` (given the type's round-trip law), and is restored by
`clear`; the remaining public operations (`add_snapshot`,
`update_current`, `take_snapshots`) do not maintain it. -/
theorem current_invariant_new_push_clear {α δ : Type} (A : Algebra α δ)
    (hrt : ∀ x y, (A.delta x y).bind (A.applyDelta x) = .ok y) :
    (∀ now, CurrentInvariant A (DeltaSnapshots.new A now)) ∧
    (∀ (s : DeltaSnapshots α δ) (origin : String) (st : α) (now : Nat)
       (s2 : DeltaSnapshots α δ),
      CurrentInvariant A s →
      DeltaSnapshots.pushSnapshot A s origin st now = .ok s2 →
      CurrentInvariant A s2) ∧
    (∀ (s : DeltaSnapshots α δ) (now : Nat),
      CurrentInvariant A (DeltaSnapshots.clear A s now)) := by
  refine ⟨fun _ => rfl, ?_, fun _ _ => rfl⟩
  intro s origin st now s2 hinv hpush
  unfold CurrentInvariant at hinv ⊢
  have h := hrt s.current.state st
  cases hd : A.delta s.current.state st with
  | error e =>
    rw [hd] at h
    simp [Except.bind] at h
  | ok d =>
    rw [hd] at h
    have happ : A.applyDelta s.current.state d = .ok st := by
      simpa [Except.bind] using h
    simp only [DeltaSnapshots.pushSnapshot, hd] at hpush
    cases hpush
    simp only [DeltaSnapshots.addSnapshot, List.map_append, List.map_cons,
      List.map_nil]
    rw [replay_append, hinv]
    simp [Except.bind, happ]

/-- Witness for "C6" (amended) at a concrete input: pushing state `true`
with origin `"a"` onto a fresh `bool` history yields a history that
still satisfies the cached-current invariant. -/
theorem current_invariant_new_push_clear_witness :
    CurrentInvariant boolAlgebra
      { snapshots := [⟨5, "a", ⟨some true⟩⟩], current := ⟨5, "a", true⟩ } :=
  (current_invariant_new_push_clear boolAlgebra (fun _ _ => rfl)).2.1
    (DeltaSnapshots.new boolAlgebra 0) "a" true 5
    { snapshots := [⟨5, "a", ⟨some true⟩⟩], current := ⟨5, "a", true⟩ }
    rfl rfl

/-- "C7": equality of both snapshot kinds holds iff their timestamps and
origins are equal — the carried state or delta payload is never
inspected (neither function even requires equality on the payload type)
— and their ordering is lexicographic on (timestamp, origin), again
ignoring the payload. -/
theorem snapshot_eq_and_ord_ignore_payload {α δ : Type}
    (a b : FullSnapshot α) (c d : DeltaSnapshot δ) :
    (fullSnapshotEq a b = true ↔ a.timestamp = b.timestamp ∧ a.origin = b.origin) ∧
    fullSnapshotCmp a b =
      (compare a.timestamp b.timestamp).then (compare a.origin b.origin) ∧
    (deltaSnapshotEq c d = true ↔ c.timestamp = d.timestamp ∧ c.origin = d.origin) ∧
    deltaSnapshotCmp c d =
      (compare c.timestamp d.timestamp).then (compare c.origin d.origin) := by
  refine ⟨?_, ?_, ?_, ?_⟩
  · by_cases h1 : a.timestamp = b.timestamp <;>
      by_cases h2 : a.origin = b.origin <;>
      simp [fullSnapshotEq, h1, h2]
  · cases h1 : compare a.timestamp b.timestamp <;>
      cases h2 : compare a.origin b.origin <;>
      simp [fullSnapshotCmp, h1, h2, Ordering.then]
  · by_cases h1 : c.timestamp = d.timestamp <;>
      by_cases h2 : c.origin = d.origin <;>
      simp [deltaSnapshotEq, h1, h2]
  · cases h1 : compare c.timestamp d.timestamp <;>
      cases h2 : compare c.origin d.origin <;>
      simp [deltaSnapshotCmp, h1, h2, Ordering.then]

/-- "C8": expansion of a delta history is all-or-nothing. The
loop-with-accumulator translation of `to_full_snapshots` equals the
spec-level recursion that patches sequentially from the default state
and aborts on the first failure; on success the output has one full
snapshot per stored delta; and on failure the returned error is exactly
the underlying patch error of the first delta that is inconsistent with
its replayed predecessor state. -/
theorem expansion_all_or_nothing {α δ : Type} (A : Algebra α δ) (now : Nat)
    (s : DeltaSnapshots α δ) :
    DeltaSnapshots.toFullSnapshots A now s =
      (specExpansion A A.defaultVal s.snapshots).map FullSnapshots.mk ∧
    (∀ l, specExpansion A A.defaultVal s.snapshots = .ok l →
      l.length = s.snapshots.length) ∧
    (∀ e, DeltaSnapshots.toFullSnapshots A now s = .error e →
      ∃ i, ∃ hlt : i < s.snapshots.length, ∃ st,
        replay A A.defaultVal ((s.snapshots.map DeltaSnapshot.delta).take i) = .ok st ∧
        A.applyDelta st (s.snapshots.get ⟨i, hlt⟩).delta = .error e) := by
  have hmain : DeltaSnapshots.toFullSnapshots A now s =
      (specExpansion A A.defaultVal s.snapshots).map FullSnapshots.mk := by
    simp only [DeltaSnapshots.toFullSnapshots]
    rw [toFullSnapshotsLoop_spec A (defaultFullSnapshot A now) s.snapshots []
      A.defaultVal rfl]
    cases hr : specExpansion A A.defaultVal s.snapshots <;> simp [hr, Except.map]
  refine ⟨hmain, fun l hl => specExpansion_ok_length A s.snapshots A.defaultVal l hl, ?_⟩
  intro e he
  rw [hmain] at he
  cases hr : specExpansion A A.defaultVal s.snapshots with
  | error e2 =>
    rw [hr] at he
    simp only [Except.map] at he
    cases he
    exact specExpansion_error_first A s.snapshots A.defaultVal e hr
  | ok l =>
    rw [hr] at he
    simp [Except.map] at he

/-- Witness for "C8" at a concrete input: a one-delta `bool` history
expands exactly as the spec-level recursion does, and its successful
expansion has as many full snapshots as there are stored deltas. -/
theorem expansion_all_or_nothing_witness :
    DeltaSnapshots.toFullSnapshots boolAlgebra 0
        { snapshots := [⟨1, "a", ⟨some true⟩⟩], current := ⟨1, "a", true⟩ } =
      (specExpansion boolAlgebra boolAlgebra.defaultVal
        [⟨1, "a", ⟨some true⟩⟩]).map FullSnapshots.mk ∧
    ([(⟨1, "a", true⟩ : FullSnapshot Bool)]).length =
      ([(⟨1, "a", (⟨some true⟩ : PrimDelta Bool)⟩ :
        DeltaSnapshot (PrimDelta Bool))]).length :=
  ⟨(expansion_all_or_nothing boolAlgebra 0
      { snapshots := [⟨1, "a", ⟨some true⟩⟩], current := ⟨1, "a", true⟩ }).1,
   (expansion_all_or_nothing boolAlgebra 0
      { snapshots := [⟨1, "a", ⟨some true⟩⟩], current := ⟨1, "a", true⟩ }).2.1
      [⟨1, "a", true⟩] rfl⟩

/-- "C10": `snapshot_ref` is total — it is a function defined for every
index, returning `Ok` of the idx-th snapshot when `idx` is in bounds and
the `ExpectedValue` error when `idx` is at or beyond the length. -/
theorem snapshot_ref_total {α : Type} (h : FullSnapshots α) (idx : Nat) :
    (∀ hlt : idx < h.snaps.length,
      h.snapshotRef idx = .ok (h.snaps.get ⟨idx, hlt⟩)) ∧
    (h.snaps.length ≤ idx →
      h.snapshotRef idx = .error DeltaError.expectedValue) := by
  constructor
  · intro hlt
    simp [FullSnapshots.snapshotRef, List.getElem?_eq_getElem hlt]
  · intro hge
    simp [FullSnapshots.snapshotRef, List.getElem?_eq_none hge]

/-- Witness for "C10" at a concrete input: on a one-element history,
index 0 returns the snapshot and index 1 returns `ExpectedValue`. -/
theorem snapshot_ref_total_witness :
    FullSnapshots.snapshotRef (⟨[⟨5, "a", true⟩]⟩ : FullSnapshots Bool) 0 =
      .ok ⟨5, "a", true⟩ ∧
    FullSnapshots.snapshotRef (⟨[⟨5, "a", true⟩]⟩ : FullSnapshots Bool) 1 =
      .error DeltaError.expectedValue :=
  ⟨(snapshot_ref_total ⟨[⟨5, "a", true⟩]⟩ 0).1 (by decide),
   (snapshot_ref_total ⟨[⟨5, "a", true⟩]⟩ 1).2 (by decide)⟩

/-- Witness for "C9" at concrete inputs: over the `bool` algebra,
diffing `Rc(true)` against `Rc(false)` (unequal contents) yields the
recursive child delta, and patching with a present child delta rebuilds
a new `Rc` with the patched contents. -/
theorem rc_delta_spec_witness :
    (Rc.mk true).val ≠ (Rc.mk false).val ∧
    rcDeltaOf boolAlgebra ⟨true⟩ ⟨false⟩ =
      (boolAlgebra.delta true false).map (fun d => ⟨some d⟩) :=
  ⟨by decide, (rc_delta_spec boolAlgebra ⟨true⟩ ⟨false⟩).2.1 (by decide)⟩

end Deltoid
